import Mathlib

/-!
Shallow embedding of `src/CAPMBot.py` (class `CAPMBot`): the mean-variance
performance model (`get_potential_performance`), the aggressive and
market-making trade searches (`is_portfolio_optimal`,
`_market_making_portfolio_optimal`), order validity checking
(`_check_order_validity`), asset-property initialization
(`_initialize_asset_properties`) and the single-order lifecycle spread over
`received_orders`, `received_holdings`, `order_accepted`, `order_rejected`,
`_illiquid_market_market_making`, `_increment_current_wait_time` and
`_cancel_order`.

Modelling conventions:
- Python floats are modelled as exact rationals (`ℚ`); prices and cash are
  integer cents (`Int`), holdings are `Int`.
- Python `dict`s are modelled as association lists in insertion order with
  insert-or-update semantics (`alistSet`), which is exactly what the code
  relies on (`optimal_trades[performance] = order` overwrites on equal keys,
  `.items()` iterates in insertion order).
- The mutable fields of the bot object are collected in `BotState`; handlers
  become functions `BotState → input → BotState × List Action`, where
  `Action` records the calls to `self.send_order` and `self.inform`.
- `self._current_performance is None` is modelled by the flag `perfInit`
  (false while still `None`).
- Leading underscores of Python method names are dropped where needed.
-/

namespace CAPMBot

abbrev Security := Nat

inductive OrderSide where
  | BUY
  | SELL
  deriving DecidableEq

inductive OrderType where
  | LIMIT
  | CANCEL
  deriving DecidableEq

/-- A candidate order as built inside the two searches: only `ref`, `price`
and `order_side` are populated at construction time. -/
structure BotOrder where
  ref : Security
  price : Int
  order_side : OrderSide
  deriving DecidableEq

/-- A fully populated order (after `trade.order_type`/`trade.units` are set,
or a CANCEL copy of a book order). -/
structure FullOrder where
  ref : Security
  price : Int
  order_side : OrderSide
  order_type : OrderType
  units : Int
  deriving DecidableEq

/-- An entry of `Order.current()`: an open order on the book. -/
structure BookOrder where
  sec : Security
  price : Int
  order_side : OrderSide
  mine : Bool
  units : Int
  deriving DecidableEq

/-- The `traded_order` attached to a notified order. -/
structure TradedOrd where
  mine : Bool
  sec : Security
  price : Int
  order_side : OrderSide
  deriving DecidableEq

/-- An order passed to `received_orders`. -/
structure NotifOrder where
  mine : Bool
  sec : Security
  price : Int
  order_side : OrderSide
  traded_order : Option TradedOrd
  deriving DecidableEq

/-- The mutable state of the bot object (fields of `CAPMBot`). -/
structure BotState where
  securities : List Security
  payoffs : Security → List Int
  riskPenalty : ℚ
  priceTick : Security → Int
  minPrice : Security → Int
  maxPrice : Security → Int
  cashHoldings : Int
  assetHoldings : Security → Int
  shortAssetHoldings : Security → Int
  expectedReturns : Security → ℚ
  varCovar : Security × Security → ℚ
  currentPerformance : ℚ
  perfInit : Bool
  mostEnhancingTrade : Option FullOrder
  maxWaitTime : Int
  currentWaitTime : Int
  orderOnMarket : Bool

/-- Pointwise update of a per-security table (a Python `dict` write). -/
def updFn {β : Type} (f : Security → β) (k : Security) (v : β) : Security → β :=
  fun x => if x = k then v else f x

/-- Association-list lookup (`d.get(k)` on a Python dict). -/
def alistGet {α β : Type} [DecidableEq α] : List (α × β) → α → Option β
  | [], _ => none
  | p :: rest, k => if p.1 = k then some p.2 else alistGet rest k

/-- Association-list write (`d[k] = v` on a Python dict): updates the first
entry with key `k` in place, or appends a new entry. -/
def alistSet {α β : Type} [DecidableEq α] : List (α × β) → α → β → List (α × β)
  | [], k, v => [(k, v)]
  | p :: rest, k, v => if p.1 = k then (k, v) :: rest else p :: alistSet rest k v

/-- `get_potential_performance` (lines 67-103): hypothetical performance of
the portfolio after executing `orders`.  The Python code copies the holdings
dict, walks the order list updating holdings and projected cash, then adds
the expected-return term and subtracts the risk-weighted variance term. -/
def get_potential_performance (s : BotState) (orders : List BotOrder) : ℚ :=
  let h := orders.foldl (fun f o =>
    match o.order_side with
    | OrderSide.SELL => updFn f o.ref (f o.ref - 1)
    | OrderSide.BUY => updFn f o.ref (f o.ref + 1)) s.assetHoldings
  let cash := orders.foldl (fun c o =>
    match o.order_side with
    | OrderSide.SELL => c + (o.price : ℚ) / 100
    | OrderSide.BUY => c - (o.price : ℚ) / 100) ((s.cashHoldings : ℚ) / 100)
  let ep := s.securities.foldl (fun acc sec => acc + s.expectedReturns sec * ((h sec : Int) : ℚ)) cash
  let pv := s.securities.foldl (fun acc s1 =>
    s.securities.foldl
      (fun acc2 s2 => acc2 + ((h s1 : Int) : ℚ) * ((h s2 : Int) : ℚ) * s.varCovar (s1, s2)) acc) 0
  ep - s.riskPenalty * pv

/-- `_check_order_validity` (lines 393-421). -/
def check_order_validity (s : BotState) (o : FullOrder) : Bool :=
  if o.price > s.maxPrice o.ref then false
  else if o.price < s.minPrice o.ref then false
  else
    match o.order_side with
    | OrderSide.BUY => if o.price > s.cashHoldings then false else true
    | OrderSide.SELL => if o.units > s.shortAssetHoldings o.ref then false else true

/-- One iteration of the best bid/ask scan (lines 117-133 and 453-469):
keep the maximum bid and the minimum ask per security.  First component of
the accumulator: `best_bid_dict`, second: `best_ask_dict`. -/
def scanStep (acc : List (Security × Int) × List (Security × Int)) (o : BookOrder) :
    List (Security × Int) × List (Security × Int) :=
  match o.order_side with
  | OrderSide.SELL =>
      match alistGet acc.2 o.sec with
      | none => (acc.1, alistSet acc.2 o.sec o.price)
      | some p => if o.price < p then (acc.1, alistSet acc.2 o.sec o.price) else acc
  | OrderSide.BUY =>
      match alistGet acc.1 o.sec with
      | none => (alistSet acc.1 o.sec o.price, acc.2)
      | some p => if o.price > p then (alistSet acc.1 o.sec o.price, acc.2) else acc

/-- The best bid/ask scan shared by both searches (lines 113-133 and
449-469): one pass over `Order.current()`. -/
def scanBook (book : List BookOrder) : List (Security × Int) × List (Security × Int) :=
  book.foldl scanStep ([], [])

/-- The candidate orders built by `is_portfolio_optimal` (lines 138-160), in
construction order: one-unit BUYs at each best ask, then one-unit SELLs at
each best bid. -/
def aggCands (book : List BookOrder) : List BotOrder :=
  ((scanBook book).2.map fun p => ⟨p.1, p.2, OrderSide.BUY⟩)
    ++ ((scanBook book).1.map fun p => ⟨p.1, p.2, OrderSide.SELL⟩)

/-- One iteration of the candidate-scoring loops (lines 139-160 and
487-508): score the candidate in isolation and insert it keyed by its score
when the score strictly exceeds `self._current_performance`.  (The Python
code computes the score once into a local; recomputing it here is identical
because the evaluator is pure.) -/
def tradeStep (s : BotState) (d : List (ℚ × BotOrder)) (c : BotOrder) : List (ℚ × BotOrder) :=
  if get_potential_performance s [c] > s.currentPerformance
  then alistSet d (get_potential_performance s [c]) c
  else d

/-- The `optimal_trades` dict (lines 136-160 and 484-508). -/
def buildTrades (s : BotState) (cands : List BotOrder) : List (ℚ × BotOrder) :=
  cands.foldl (tradeStep s) []

/-- Populating the remaining parameters of a retained trade
(lines 171-174 / 519-522): `order_type = LIMIT`, `units = 1`. -/
def fullOf (o : BotOrder) : FullOrder :=
  ⟨o.ref, o.price, o.order_side, OrderType.LIMIT, 1⟩

/-- The selection loop over `optimal_trades.items()` (lines 165-182 and
513-530): `best_performance` starts at 0 and a candidate is validated only
when its score strictly exceeds the running best. -/
def selLoop (s : BotState) : List (ℚ × BotOrder) → ℚ → Option FullOrder → ℚ × Option FullOrder
  | [], bp, bt => (bp, bt)
  | p :: rest, bp, bt =>
    if p.1 > bp then
      if check_order_validity s (fullOf p.2) then selLoop s rest p.1 (some (fullOf p.2))
      else selLoop s rest bp bt
    else selLoop s rest bp bt

/-- The shell shared verbatim by both searches (lines 162-189 and 510-537):
build the score-keyed dict, and when it is non-empty run the selection loop
with `best_performance = 0`; the winning trade (if any) becomes
`self._most_enhancing_trade` and the return value is False, otherwise the
trade is cleared and the return value is True. -/
def searchShell (s : BotState) (cands : List BotOrder) : Bool × Option FullOrder :=
  let trades := buildTrades s cands
  if trades.length ≠ 0 then
    match (selLoop s trades 0 none).2 with
    | some t => (false, some t)
    | none => (true, none)
  else (true, none)

/-- `is_portfolio_optimal` (lines 105-189).  Returns the pair
(return value, final `self._most_enhancing_trade`). -/
def is_portfolio_optimal (s : BotState) (book : List BookOrder) : Bool × Option FullOrder :=
  searchShell s (aggCands book)

/-- The fallback pass of the market-making search (lines 471-481): for every
known security still missing from the dict, substitute `price sec`
(structural recursion over the market list, one dict update per market,
exactly the Python loop). -/
def fb (price : Security → Int) : List Security → List (Security × Int) → List (Security × Int)
  | [], d => d
  | sec :: rest, d =>
    match alistGet d sec with
    | none => fb price rest (alistSet d sec (price sec))
    | some _ => fb price rest d

/-- Synthetic best-bid dict of the market-making search: live best bids,
with the minimum valid price substituted for securities lacking one. -/
def mmBids (s : BotState) (book : List BookOrder) : List (Security × Int) :=
  fb s.minPrice s.securities (scanBook book).1

/-- Synthetic best-ask dict of the market-making search: live best asks,
with the maximum valid price substituted for securities lacking one. -/
def mmAsks (s : BotState) (book : List BookOrder) : List (Security × Int) :=
  fb s.maxPrice s.securities (scanBook book).2

/-- The candidate orders built by `_market_making_portfolio_optimal`
(lines 486-508), in construction order: BUYs one tick above each
(live-or-minimum) bid, then SELLs one tick below each (live-or-maximum)
ask. -/
def mmCands (s : BotState) (book : List BookOrder) : List BotOrder :=
  ((mmBids s book).map fun p => ⟨p.1, p.2 + s.priceTick p.1, OrderSide.BUY⟩)
    ++ ((mmAsks s book).map fun p => ⟨p.1, p.2 - s.priceTick p.1, OrderSide.SELL⟩)

/-- `_market_making_portfolio_optimal` (lines 442-537). -/
def market_making_portfolio_optimal (s : BotState) (book : List BookOrder) :
    Bool × Option FullOrder :=
  searchShell s (mmCands s book)

/-- The expected-return computation of `_initialize_asset_properties`
(lines 363-369): sum of `state / 100` over the payoff list, divided by its
length. -/
def exp_return (payoff : List Int) : ℚ :=
  (payoff.foldl (fun acc st => acc + (st : ℚ) / 100) 0) / (payoff.length : ℚ)

/-- One entry of the variance-covariance matrix (lines 371-387):
`state_probability = 1 / state_num` with `state_num` the length of the FIRST
security's payoff list, accumulated over `range(state_num)`. -/
def vcov_entry (p1 p2 : List Int) (e1 e2 : ℚ) : ℚ :=
  (List.range p1.length).foldl
    (fun acc i =>
      acc + (1 / (p1.length : ℚ))
        * ((((p1.getD i 0 : Int) : ℚ) / 100 - e1) * (((p2.getD i 0 : Int) : ℚ) / 100 - e2))) 0

/-- `_initialize_asset_properties` (lines 354-391), as a state transformer:
fills `expectedReturns` and `varCovar` from the payoff table. -/
def init_asset_properties (s : BotState) : BotState :=
  { s with
    expectedReturns := fun sec => exp_return (s.payoffs sec),
    varCovar := fun p =>
      vcov_entry (s.payoffs p.1) (s.payoffs p.2)
        (exp_return (s.payoffs p.1)) (exp_return (s.payoffs p.2)) }

/-- `received_holdings` (lines 319-335): refresh cash and holdings, run the
one-time asset-property initialization, recompute the realized
performance. -/
def received_holdings (s : BotState) (cash : Int) (assets : List (Security × Int × Int)) :
    BotState :=
  let s1 := { s with
    cashHoldings := cash,
    assetHoldings := assets.foldl (fun f a => updFn f a.1 a.2.1) s.assetHoldings,
    shortAssetHoldings := assets.foldl (fun f a => updFn f a.1 a.2.2) s.shortAssetHoldings }
  let s2 := if s1.perfInit then s1 else init_asset_properties s1
  { s2 with currentPerformance := get_potential_performance s2 [], perfInit := true }

/-- Whether a notified order signals a fill of the bot's order
(lines 225-264): either the bot's own order carries a `traded_order`, or the
notified counter-order's `traded_order` belongs to the bot. -/
def notifMatches (o : NotifOrder) : Bool :=
  (o.mine && o.traded_order.isSome) ||
    (match o.traded_order with
     | some t => t.mine
     | none => false)

/-- The fill-detection loop of `received_orders` (lines 223-264): first
matching notification wins; returns the consumed order's data used by the
`inform` call. -/
def findFill : List NotifOrder → Option (Security × Int × OrderSide)
  | [] => none
  | o :: rest =>
    if o.mine && o.traded_order.isSome then some (o.sec, o.price, o.order_side)
    else
      match o.traded_order with
      | some t => if t.mine then some (t.sec, t.price, t.order_side) else findFill rest
      | none => findFill rest

/-- The externally visible effects of the handlers: `self.inform` and
`self.send_order` calls. -/
inductive Action where
  | informTraded (sec : Security) (price : Int) (side : OrderSide)
  | informAccepted (o : FullOrder)
  | informRejected (o : FullOrder)
  | informPerformance (perf : ℚ)
  | send (o : FullOrder)
  deriving DecidableEq

/-- `_cancel_order` (lines 431-440): a copy of the book order with
`order_type = CANCEL`. -/
def cancelOf (b : BookOrder) : FullOrder :=
  ⟨b.sec, b.price, b.order_side, OrderType.CANCEL, b.units⟩

/-- `received_orders` (lines 217-297).  `notifs` is the notified order list,
`book` is `Order.current()`. -/
def received_orders (s : BotState) (notifs : List NotifOrder) (book : List BookOrder) :
    BotState × List Action :=
  if s.orderOnMarket then
    match findFill notifs with
    | some f =>
        ({ s with orderOnMarket := false, currentWaitTime := 0 },
         [Action.informTraded f.1 f.2.1 f.2.2])
    | none =>
        if s.currentWaitTime > s.maxWaitTime then
          ({ s with orderOnMarket := false, currentWaitTime := 0 },
           (book.filter (fun o => o.mine)).map (fun o => Action.send (cancelOf o)))
        else (s, [])
  else
    match is_portfolio_optimal s book with
    | (false, some t) =>
        ({ s with mostEnhancingTrade := some t, orderOnMarket := true, currentWaitTime := 0 },
         [Action.send t])
    | r =>
        if s.currentWaitTime > s.maxWaitTime then
          match market_making_portfolio_optimal s book with
          | (false, some t) =>
              ({ s with mostEnhancingTrade := some t, orderOnMarket := true, currentWaitTime := 0 },
               [Action.send t])
          | r2 => ({ s with mostEnhancingTrade := r2.2 }, [])
        else ({ s with mostEnhancingTrade := r.2 }, [])

/-- `_illiquid_market_market_making` (lines 337-352). -/
def illiquid_market_market_making (s : BotState) (book : List BookOrder) :
    BotState × List Action :=
  if s.currentWaitTime > s.maxWaitTime then
    if s.orderOnMarket then (s, [])
    else
      match market_making_portfolio_optimal s book with
      | (false, some t) =>
          ({ s with mostEnhancingTrade := some t, orderOnMarket := true, currentWaitTime := 0 },
           [Action.send t])
      | r => ({ s with mostEnhancingTrade := r.2 }, [])
  else (s, [])

/-- `order_accepted` (lines 191-202): informational only. -/
def order_accepted (s : BotState) (o : FullOrder) : BotState × List Action :=
  (s, [Action.informAccepted o])

/-- `order_rejected` (lines 204-215): informational only — no lifecycle
field is touched. -/
def order_rejected (s : BotState) (o : FullOrder) : BotState × List Action :=
  (s, [Action.informRejected o])

/-- The external events the bot reacts to. -/
inductive Event where
  | recOrders (notifs : List NotifOrder) (book : List BookOrder)
  | recHoldings (cash : Int) (assets : List (Security × Int × Int))
  | tick1
  | tick5 (book : List BookOrder)
  | accepted (o : FullOrder)
  | rejected (o : FullOrder)

/-- One callback dispatch: every handler runs to completion before the next
event (single-threaded host runtime).  `tick1` is
`_increment_current_wait_time` (lines 423-429), `tick5` the periodic
illiquid-market check. -/
def step (s : BotState) : Event → BotState × List Action
  | Event.recOrders notifs book => received_orders s notifs book
  | Event.recHoldings cash assets =>
      let s1 := received_holdings s cash assets
      (s1, if s1.orderOnMarket then [] else [Action.informPerformance s1.currentPerformance])
  | Event.tick1 => ({ s with currentWaitTime := s.currentWaitTime + 1 }, [])
  | Event.tick5 book => illiquid_market_market_making s book
  | Event.accepted o => order_accepted s o
  | Event.rejected o => order_rejected s o

/-! ### Generic fold and association-list lemmas -/

theorem foldl_add_eq {α : Type} (g : α → ℚ) (l : List α) :
    ∀ init : ℚ, l.foldl (fun acc x => acc + g x) init = init + (l.map g).sum := by
  induction l with
  | nil => intro init; simp
  | cons a t ih =>
    intro init
    simp only [List.foldl_cons, List.map_cons, List.sum_cons, ih]
    ring

theorem foldl_mul_add_eq {α : Type} (c : ℚ) (g : α → ℚ) (l : List α) :
    ∀ init : ℚ, l.foldl (fun acc x => acc + c * g x) init = init + c * (l.map g).sum := by
  induction l with
  | nil => intro init; simp
  | cons a t ih =>
    intro init
    simp only [List.foldl_cons, List.map_cons, List.sum_cons, ih]
    ring

theorem alistGet_alistSet_self {α β : Type} [DecidableEq α] (l : List (α × β)) (k : α) (v : β) :
    alistGet (alistSet l k v) k = some v := by
  induction l with
  | nil => simp [alistSet, alistGet]
  | cons p t ih =>
    by_cases h : p.1 = k
    · simp [alistSet, h, alistGet]
    · simp [alistSet, h, alistGet, ih]

theorem alistGet_alistSet_ne {α β : Type} [DecidableEq α] (l : List (α × β)) (k k2 : α) (v : β)
    (h : k2 ≠ k) : alistGet (alistSet l k v) k2 = alistGet l k2 := by
  induction l with
  | nil => simp [alistSet, alistGet, Ne.symm h]
  | cons p t ih =>
    by_cases hp : p.1 = k
    · simp [alistSet, hp, alistGet, Ne.symm h]
    · simp [alistSet, hp, alistGet, ih]

theorem mem_alistSet {α β : Type} [DecidableEq α] (l : List (α × β)) (k : α) (v : β) :
    ∀ p ∈ alistSet l k v, p = (k, v) ∨ p ∈ l := by
  induction l with
  | nil => intro p hp; simp [alistSet] at hp; left; exact hp
  | cons q t ih =>
    intro p hp
    by_cases h : q.1 = k
    · simp only [alistSet, h, if_pos, List.mem_cons] at hp
      rcases hp with h1 | h1
      · left; exact h1
      · right; exact List.mem_cons_of_mem q h1
    · simp only [alistSet, h, if_neg, not_false_iff, List.mem_cons] at hp
      rcases hp with h1 | h1
      · right; exact h1 ▸ List.mem_cons_self q t
      · rcases ih p h1 with h2 | h2
        · left; exact h2
        · right; exact List.mem_cons_of_mem q h2

/-! ### C8: order validity -/

/-- C8: `_check_order_validity` returns False exactly when the price exceeds
the security's maximum valid price, or is below its minimum, or the order is
a BUY priced above the available cash, or a SELL whose units exceed the
sellable holdings of the security; otherwise it returns True.  The function
only reads the state (it is a plain function of `BotState`), so the bot's
state is unchanged. -/
theorem check_order_validity_spec (s : BotState) (o : FullOrder) :
    check_order_validity s o = false ↔
      (s.maxPrice o.ref < o.price ∨ o.price < s.minPrice o.ref ∨
        (o.order_side = OrderSide.BUY ∧ s.cashHoldings < o.price) ∨
        (o.order_side = OrderSide.SELL ∧ s.shortAssetHoldings o.ref < o.units)) := by
  rcases o with ⟨ref, price, side, ty, units⟩
  cases side <;>
    simp only [check_order_validity, gt_iff_lt] <;>
    split_ifs <;> simp_all

/-! ### C4: asset-property initialization -/

/-- The Scenario A configuration: two securities, each paying
(100, 200, 300) cents across three equally-likely states, before the
one-time initialization has run. -/
def scenarioA : BotState := {
  securities := [0, 1]
  payoffs := fun _ => [100, 200, 300]
  riskPenalty := 1/1000
  priceTick := fun _ => 1
  minPrice := fun _ => 1
  maxPrice := fun _ => 500
  cashHoldings := 0
  assetHoldings := fun _ => 0
  shortAssetHoldings := fun _ => 0
  expectedReturns := fun _ => 0
  varCovar := fun _ => 0
  currentPerformance := 0
  perfInit := false
  mostEnhancingTrade := none
  maxWaitTime := 6
  currentWaitTime := 0
  orderOnMarket := false }

/-- C4: initialization computes `expectedReturn[s]` as the mean of the
payoffs divided by 100 and `varianceCovariance[(s1,s2)]` as the
(1/n)-weighted sum of products of deviations from the expected returns, for
every ordered pair of securities including s1 = s2; on two securities each
with payoff states (100, 200, 300) every expected return is 2 dollars and
every variance and covariance entry is 2/3. -/
theorem init_asset_properties_spec :
    (∀ p : List Int,
        exp_return p = ((p.map fun a => (a : ℚ) / 100).sum) / (p.length : ℚ))
    ∧ (∀ (p1 p2 : List Int) (e1 e2 : ℚ),
        vcov_entry p1 p2 e1 e2
          = (1 / (p1.length : ℚ))
            * ((List.range p1.length).map fun i =>
                (((p1.getD i 0 : Int) : ℚ) / 100 - e1)
                  * (((p2.getD i 0 : Int) : ℚ) / 100 - e2)).sum)
    ∧ (∀ (s : BotState) (sec : Security),
        (init_asset_properties s).expectedReturns sec = exp_return (s.payoffs sec))
    ∧ (∀ (s : BotState) (pr : Security × Security),
        (init_asset_properties s).varCovar pr
          = vcov_entry (s.payoffs pr.1) (s.payoffs pr.2)
              (exp_return (s.payoffs pr.1)) (exp_return (s.payoffs pr.2)))
    ∧ ((init_asset_properties scenarioA).expectedReturns 0 = 2
        ∧ (init_asset_properties scenarioA).expectedReturns 1 = 2
        ∧ (init_asset_properties scenarioA).varCovar (0, 0) = 2/3
        ∧ (init_asset_properties scenarioA).varCovar (0, 1) = 2/3
        ∧ (init_asset_properties scenarioA).varCovar (1, 0) = 2/3
        ∧ (init_asset_properties scenarioA).varCovar (1, 1) = 2/3) := by
  refine ⟨?_, ?_, ?_, ?_, ?_, ?_, ?_, ?_, ?_, ?_⟩
  · intro p
    unfold exp_return
    rw [foldl_add_eq]
    simp
  · intro p1 p2 e1 e2
    unfold vcov_entry
    rw [foldl_mul_add_eq]
    simp
  · intro s sec; rfl
  · intro s pr; rfl
  · norm_num [init_asset_properties, scenarioA, exp_return]
  · norm_num [init_asset_properties, scenarioA, exp_return]
  · norm_num [init_asset_properties, scenarioA, vcov_entry, exp_return, List.range_succ]
  · norm_num [init_asset_properties, scenarioA, vcov_entry, exp_return, List.range_succ]
  · norm_num [init_asset_properties, scenarioA, vcov_entry, exp_return, List.range_succ]
  · norm_num [init_asset_properties, scenarioA, vcov_entry, exp_return, List.range_succ]

/-! ### C3: the performance evaluator -/

/-- The projected-holdings update loop of `get_potential_performance`
(lines 82-90), evaluated at one security: base holdings plus the number of
BUY orders minus the number of SELL orders for that security. -/
theorem gpp_holdings_apply (orders : List BotOrder) :
    ∀ (f : Security → Int) (sec : Security),
      (orders.foldl (fun f o =>
        match o.order_side with
        | OrderSide.SELL => updFn f o.ref (f o.ref - 1)
        | OrderSide.BUY => updFn f o.ref (f o.ref + 1)) f) sec
      = f sec
        + ((orders.filter fun o => o.order_side == OrderSide.BUY && o.ref == sec).length : Int)
        - ((orders.filter fun o => o.order_side == OrderSide.SELL && o.ref == sec).length : Int) := by
  induction orders with
  | nil => intro f sec; simp
  | cons o t ih =>
    intro f sec
    rcases o with ⟨ref, price, side⟩
    by_cases h : ref = sec
    · subst h
      cases side <;>
        simp [List.foldl_cons, List.filter_cons, ih, updFn] <;> omega
    · have hb : (ref == sec) = false := by simp [h]
      cases side <;>
        simp [List.foldl_cons, List.filter_cons, ih, updFn, hb, Ne.symm h]

/-- The projected-cash update loop of `get_potential_performance`
(lines 82-90): base cash plus SELL proceeds minus BUY costs, in dollars. -/
theorem gpp_cash_eq (orders : List BotOrder) :
    ∀ c0 : ℚ,
      orders.foldl (fun c o =>
        match o.order_side with
        | OrderSide.SELL => c + (o.price : ℚ) / 100
        | OrderSide.BUY => c - (o.price : ℚ) / 100) c0
      = c0
        + ((orders.filter fun o => o.order_side == OrderSide.SELL).map
            fun o => (o.price : ℚ) / 100).sum
        - ((orders.filter fun o => o.order_side == OrderSide.BUY).map
            fun o => (o.price : ℚ) / 100).sum := by
  induction orders with
  | nil => intro c0; simp
  | cons o t ih =>
    intro c0
    rcases o with ⟨ref, price, side⟩
    cases side <;> simp [List.filter_cons, ih] <;> ring

/-- Modelled from the spec's words (§4.2): projected cash after the
hypothetical trades — current cash in dollars, plus price/100 for each SELL,
minus price/100 for each BUY. -/
def spec_proj_cash (s : BotState) (orders : List BotOrder) : ℚ :=
  (s.cashHoldings : ℚ) / 100
    + ((orders.filter fun o => o.order_side == OrderSide.SELL).map
        fun o => (o.price : ℚ) / 100).sum
    - ((orders.filter fun o => o.order_side == OrderSide.BUY).map
        fun o => (o.price : ℚ) / 100).sum

/-- Modelled from the spec's words (§4.2): projected holdings of a security
after the hypothetical trades — one more per BUY, one fewer per SELL. -/
def spec_holdings (s : BotState) (orders : List BotOrder) (sec : Security) : Int :=
  s.assetHoldings sec
    + ((orders.filter fun o => o.order_side == OrderSide.BUY && o.ref == sec).length : Int)
    - ((orders.filter fun o => o.order_side == OrderSide.SELL && o.ref == sec).length : Int)

/-- C3: `get_potential_performance(orders)` equals projected cash plus the
expected return on projected holdings minus the risk-penalty-weighted
quadratic variance-covariance form, where a SELL lowers its security's
projected holdings by one and adds price/100 to projected cash and a BUY
does the reverse; `received_holdings` stores exactly the empty-list value
as the current realized performance.  The evaluator is a plain function of
the state, so the stored cash and holdings are left unmodified. -/
theorem get_potential_performance_spec :
    (∀ (s : BotState) (orders : List BotOrder),
      get_potential_performance s orders
        = spec_proj_cash s orders
          + (s.securities.map fun sec =>
              s.expectedReturns sec * (spec_holdings s orders sec : ℚ)).sum
          - s.riskPenalty
            * (s.securities.map fun s1 =>
                (s.securities.map fun s2 =>
                  (spec_holdings s orders s1 : ℚ) * (spec_holdings s orders s2 : ℚ)
                    * s.varCovar (s1, s2)).sum).sum)
    ∧ (∀ (s : BotState) (cash : Int) (assets : List (Security × Int × Int)),
        (received_holdings s cash assets).currentPerformance
          = get_potential_performance (received_holdings s cash assets) []) := by
  constructor
  · intro s orders
    simp only [get_potential_performance]
    rw [gpp_cash_eq]
    simp only [foldl_add_eq, gpp_holdings_apply]
    simp only [spec_proj_cash, spec_holdings]
    ring
  · intro s cash assets
    rfl

/-! ### The selection loop shared by both searches -/

theorem selLoop_fst_mono (s : BotState) (l : List (ℚ × BotOrder)) :
    ∀ (bp : ℚ) (bt : Option FullOrder), bp ≤ (selLoop s l bp bt).1 := by
  induction l with
  | nil => intro bp bt; simp [selLoop]
  | cons p t ih =>
    intro bp bt
    by_cases h1 : p.1 > bp
    · by_cases h2 : check_order_validity s (fullOf p.2) = true
      · simp only [selLoop, if_pos h1, if_pos h2]
        exact le_trans (le_of_lt h1) (ih p.1 (some (fullOf p.2)))
      · simp only [selLoop, if_pos h1, if_neg h2]
        exact ih bp bt
    · simp only [selLoop, if_neg h1]
      exact ih bp bt

theorem selLoop_some_isSome (s : BotState) (l : List (ℚ × BotOrder)) :
    ∀ (bp : ℚ) (t : FullOrder), (selLoop s l bp (some t)).2.isSome = true := by
  induction l with
  | nil => intro bp t; simp [selLoop]
  | cons p rest ih =>
    intro bp t
    by_cases h1 : p.1 > bp
    · by_cases h2 : check_order_validity s (fullOf p.2) = true
      · simp only [selLoop, if_pos h1, if_pos h2]; exact ih p.1 (fullOf p.2)
      · simp only [selLoop, if_pos h1, if_neg h2]; exact ih bp t
    · simp only [selLoop, if_neg h1]; exact ih bp t

theorem selLoop_none_iff (s : BotState) (l : List (ℚ × BotOrder)) :
    ∀ bp : ℚ, (selLoop s l bp none).2 = none ↔
      ∀ p ∈ l, bp < p.1 → ¬ check_order_validity s (fullOf p.2) = true := by
  induction l with
  | nil => intro bp; simp [selLoop]
  | cons p rest ih =>
    intro bp
    by_cases h1 : p.1 > bp
    · by_cases h2 : check_order_validity s (fullOf p.2) = true
      · simp only [selLoop, if_pos h1, if_pos h2]
        constructor
        · intro hnone
          have hs := selLoop_some_isSome s rest p.1 (fullOf p.2)
          rw [hnone] at hs
          simp at hs
        · intro hall
          exact absurd h2 (hall p (List.mem_cons_self p rest) h1)
      · simp only [selLoop, if_pos h1, if_neg h2]
        rw [ih bp]
        constructor
        · intro hall q hq hlt
          rcases List.mem_cons.mp hq with rfl | hq2
          · exact h2
          · exact hall q hq2 hlt
        · intro hall q hq hlt
          exact hall q (List.mem_cons_of_mem p hq) hlt
    · simp only [selLoop, if_neg h1]
      rw [ih bp]
      constructor
      · intro hall q hq hlt
        rcases List.mem_cons.mp hq with rfl | hq2
        · exact absurd hlt h1
        · exact hall q hq2 hlt
      · intro hall q hq hlt
        exact hall q (List.mem_cons_of_mem p hq) hlt

theorem selLoop_result (s : BotState) (l : List (ℚ × BotOrder)) :
    ∀ (bp : ℚ) (bt : Option FullOrder),
      ((selLoop s l bp bt).2 = bt ∧ (selLoop s l bp bt).1 = bp)
      ∨ ∃ p ∈ l, check_order_validity s (fullOf p.2) = true ∧ bp < p.1 ∧
          (selLoop s l bp bt).2 = some (fullOf p.2) ∧ (selLoop s l bp bt).1 = p.1 := by
  induction l with
  | nil => intro bp bt; left; simp [selLoop]
  | cons p rest ih =>
    intro bp bt
    by_cases h1 : p.1 > bp
    · by_cases h2 : check_order_validity s (fullOf p.2) = true
      · simp only [selLoop, if_pos h1, if_pos h2]
        rcases ih p.1 (some (fullOf p.2)) with ⟨ha, hb⟩ | ⟨q, hq, hv, hlt, ha, hb⟩
        · right; exact ⟨p, List.mem_cons_self p rest, h2, h1, ha, hb⟩
        · right; exact ⟨q, List.mem_cons_of_mem p hq, hv, lt_trans h1 hlt, ha, hb⟩
      · simp only [selLoop, if_pos h1, if_neg h2]
        rcases ih bp bt with h | ⟨q, hq, hrest⟩
        · left; exact h
        · right; exact ⟨q, List.mem_cons_of_mem p hq, hrest⟩
    · simp only [selLoop, if_neg h1]
      rcases ih bp bt with h | ⟨q, hq, hrest⟩
      · left; exact h
      · right; exact ⟨q, List.mem_cons_of_mem p hq, hrest⟩

theorem selLoop_bound (s : BotState) (l : List (ℚ × BotOrder)) :
    ∀ (bp : ℚ) (bt : Option FullOrder) (q : ℚ × BotOrder), q ∈ l →
      check_order_validity s (fullOf q.2) = true → q.1 ≤ (selLoop s l bp bt).1 := by
  induction l with
  | nil => intro bp bt q hq _; exact absurd hq (List.not_mem_nil q)
  | cons p rest ih =>
    intro bp bt q hq hv
    rcases List.mem_cons.mp hq with rfl | hq2
    · by_cases h1 : q.1 > bp
      · simp only [selLoop, if_pos h1, if_pos hv]
        exact selLoop_fst_mono s rest q.1 (some (fullOf q.2))
      · push_neg at h1
        simp only [selLoop]
        rw [if_neg (by push_neg; exact h1)]
        exact le_trans h1 (selLoop_fst_mono s rest bp bt)
    · by_cases h1 : p.1 > bp
      · by_cases h2 : check_order_validity s (fullOf p.2) = true
        · simp only [selLoop, if_pos h1, if_pos h2]
          exact ih p.1 (some (fullOf p.2)) q hq2 hv
        · simp only [selLoop, if_pos h1, if_neg h2]
          exact ih bp bt q hq2 hv
      · simp only [selLoop, if_neg h1]
        exact ih bp bt q hq2 hv

/-! ### The candidate dict -/

theorem mem_buildTrades_aux (s : BotState) (cands : List BotOrder) :
    ∀ (d : List (ℚ × BotOrder)) (p : ℚ × BotOrder),
      p ∈ cands.foldl (tradeStep s) d →
      p ∈ d ∨ (p.2 ∈ cands ∧ p.1 = get_potential_performance s [p.2]
                ∧ s.currentPerformance < p.1) := by
  induction cands with
  | nil => intro d p hp; left; simpa using hp
  | cons c t ih =>
    intro d p hp
    rw [List.foldl_cons] at hp
    rcases ih (tradeStep s d c) p hp with hd | hgood
    · unfold tradeStep at hd
      by_cases h : get_potential_performance s [c] > s.currentPerformance
      · rw [if_pos h] at hd
        rcases mem_alistSet d (get_potential_performance s [c]) c p hd with rfl | hd2
        · right
          exact ⟨List.mem_cons_self c t, rfl, h⟩
        · left; exact hd2
      · rw [if_neg h] at hd; left; exact hd
    · right; exact ⟨List.mem_cons_of_mem c hgood.1, hgood.2⟩

theorem mem_buildTrades (s : BotState) (cands : List BotOrder) :
    ∀ p ∈ buildTrades s cands,
      p.2 ∈ cands ∧ p.1 = get_potential_performance s [p.2]
        ∧ s.currentPerformance < p.1 := by
  intro p hp
  rcases mem_buildTrades_aux s cands [] p hp with h | h
  · simp at h
  · exact h

/-! ### C1: the selection contract of both searches -/

theorem searchShell_eq (s : BotState) (cands : List BotOrder) :
    searchShell s cands =
      match (selLoop s (buildTrades s cands) 0 none).2 with
      | some t => (false, some t)
      | none => (true, none) := by
  unfold searchShell
  cases h : buildTrades s cands with
  | nil => simp [h, selLoop]
  | cons a t => simp [h]

/-- The selection contract a search result satisfies relative to its
retained-candidates dict: it reports non-optimal exactly when some retained
candidate has a strictly positive score and passes validation, and the
stored trade is then a retained, validator-accepted, positive-score
candidate whose score is maximal among all validator-accepted retained
candidates. -/
def selection_spec (s : BotState) (trades : List (ℚ × BotOrder))
    (result : Bool × Option FullOrder) : Prop :=
  (result.1 = false ↔
    ∃ p ∈ trades, 0 < p.1 ∧ check_order_validity s (fullOf p.2) = true)
  ∧ ∀ t, result.2 = some t →
      ∃ p ∈ trades, t = fullOf p.2 ∧ check_order_validity s (fullOf p.2) = true ∧ 0 < p.1 ∧
        ∀ q ∈ trades, check_order_validity s (fullOf q.2) = true → q.1 ≤ p.1

theorem searchShell_selection (s : BotState) (cands : List BotOrder) :
    selection_spec s (buildTrades s cands) (searchShell s cands) := by
  have heq := searchShell_eq s cands
  cases hsel : (selLoop s (buildTrades s cands) 0 none).2 with
  | none =>
    rw [hsel] at heq
    constructor
    · rw [heq]
      simp only [show ((true, (none : Option FullOrder)) : Bool × Option FullOrder).1 = true
        from rfl]
      constructor
      · intro h; cases h
      · rintro ⟨p, hp, hpos, hv⟩
        exact absurd hv ((selLoop_none_iff s (buildTrades s cands) 0).mp hsel p hp hpos)
    · intro t ht
      rw [heq] at ht
      cases ht
  | some t0 =>
    rw [hsel] at heq
    rcases selLoop_result s (buildTrades s cands) 0 none with ⟨ha, _⟩ | ⟨p, hp, hv, hpos, ha, hb⟩
    · rw [hsel] at ha; cases ha
    · constructor
      · rw [heq]
        constructor
        · intro _; exact ⟨p, hp, hpos, hv⟩
        · intro _; rfl
      · intro t ht
        rw [heq] at ht
        have ht0 : t = t0 := by
          have := ht
          simp at this
          exact this.symm
        subst ht0
        have heq2 : some t = some (fullOf p.2) := by rw [← hsel, ha]
        have ht2 : t = fullOf p.2 := by injection heq2
        refine ⟨p, hp, ht2, hv, hpos, ?_⟩
        intro q hq hqv
        rw [← hb]
        exact selLoop_bound s (buildTrades s cands) 0 none q hq hqv

/-! ### Shared concrete demonstration states -/

/-- A one-security state: payoffs (100, 200, 300), expected return 2,
no holdings, cash 1000 cents, realized performance 10 dollars, no risk
penalty, price bounds 1..500, IDLE. -/
def demoBase : BotState := {
  securities := [0]
  payoffs := fun _ => [100, 200, 300]
  riskPenalty := 0
  priceTick := fun _ => 1
  minPrice := fun _ => 1
  maxPrice := fun _ => 500
  cashHoldings := 1000
  assetHoldings := fun _ => 0
  shortAssetHoldings := fun _ => 0
  expectedReturns := fun _ => 2
  varCovar := fun _ => 2/3
  currentPerformance := 10
  perfInit := true
  mostEnhancingTrade := none
  maxWaitTime := 6
  currentWaitTime := 0
  orderOnMarket := false }

/-- A book holding one foreign ask for security 0 at price 100. -/
def demoBook : List BookOrder := [⟨0, 100, OrderSide.SELL, false, 1⟩]

/-- The one-unit BUY the aggressive search finds at `demoBase`/`demoBook`. -/
def demoTrade : FullOrder := ⟨0, 100, OrderSide.BUY, OrderType.LIMIT, 1⟩

/-- A state with a strictly negative realized performance: one security with
expected return 1 and variance 1, risk penalty 1, three units held, no
cash; its realized performance is 3·1 − 1·9 = −6 dollars. -/
def negPerfState : BotState := { demoBase with
  riskPenalty := 1
  cashHoldings := 0
  assetHoldings := fun _ => 3
  shortAssetHoldings := fun _ => 3
  expectedReturns := fun _ => 1
  varCovar := fun _ => 1
  currentPerformance := -6 }

/-- A book holding one foreign bid for security 0 at price 100. -/
def negPerfBook : List BookOrder := [⟨0, 100, OrderSide.BUY, false, 1⟩]

/-- C1 (counterexample): at the negative-performance state, the SELL
candidate at the best bid scores −1, which strictly exceeds the realized
performance −6, it is retained and it passes validation, yet
`is_portfolio_optimal` returns True with no trade stored, because the
selection loop compares scores against the hard-coded zero baseline — the
claim requires it to return False with that trade. -/
theorem is_portfolio_optimal_counterexample :
    negPerfState.currentPerformance
        < get_potential_performance negPerfState [⟨0, 100, OrderSide.SELL⟩]
    ∧ ((get_potential_performance negPerfState [⟨0, 100, OrderSide.SELL⟩],
        (⟨0, 100, OrderSide.SELL⟩ : BotOrder))
          ∈ buildTrades negPerfState (aggCands negPerfBook))
    ∧ check_order_validity negPerfState (fullOf ⟨0, 100, OrderSide.SELL⟩) = true
    ∧ is_portfolio_optimal negPerfState negPerfBook = (true, none) := by
  refine ⟨?_, ?_, ?_, ?_⟩
  · norm_num [get_potential_performance, negPerfState, demoBase, updFn]
  · norm_num [buildTrades, tradeStep, aggCands, scanBook, scanStep, alistGet, alistSet,
      get_potential_performance, negPerfState, demoBase, demoBook, negPerfBook, updFn,
      List.foldl]
  · norm_num [check_order_validity, fullOf, negPerfState, demoBase]
  · norm_num [is_portfolio_optimal, searchShell, buildTrades, tradeStep, aggCands, scanBook,
      scanStep, alistGet, alistSet, get_potential_performance, negPerfState, demoBase,
      negPerfBook, updFn, selLoop, check_order_validity, fullOf]

/-- C1 (amended): both searches retain exactly the score-keyed candidates
whose score strictly exceeds the realized performance (equal-scored
candidates collapsing onto one key), and report non-optimal exactly when
some retained candidate both has a strictly positive score (the hard-coded
zero baseline of the selection loop) and is validator-accepted; the stored
most-enhancing trade is then a retained, accepted, positive-score candidate
of maximal score among accepted retained candidates; otherwise they report
optimal with no trade stored. -/
theorem is_portfolio_optimal_selection (s : BotState) (book : List BookOrder) :
    (∀ p ∈ buildTrades s (aggCands book),
        p.2 ∈ aggCands book ∧ p.1 = get_potential_performance s [p.2]
          ∧ s.currentPerformance < p.1)
    ∧ selection_spec s (buildTrades s (aggCands book)) (is_portfolio_optimal s book)
    ∧ (∀ p ∈ buildTrades s (mmCands s book),
        p.2 ∈ mmCands s book ∧ p.1 = get_potential_performance s [p.2]
          ∧ s.currentPerformance < p.1)
    ∧ selection_spec s (buildTrades s (mmCands s book))
        (market_making_portfolio_optimal s book) :=
  ⟨mem_buildTrades s (aggCands book), searchShell_selection s (aggCands book),
    mem_buildTrades s (mmCands s book), searchShell_selection s (mmCands s book)⟩

/-- C1 (witness): at the demonstration state the aggressive search retains
the BUY at the ask, reports non-optimal, and stores that BUY. -/
theorem is_portfolio_optimal_selection_witness :
    ((⟨0, 100, OrderSide.BUY⟩ : BotOrder) ∈ aggCands demoBook
      ∧ (11 : ℚ) = get_potential_performance demoBase [⟨0, 100, OrderSide.BUY⟩]
      ∧ demoBase.currentPerformance < (11 : ℚ))
    ∧ (is_portfolio_optimal demoBase demoBook).1 = false
    ∧ ∃ p ∈ buildTrades demoBase (aggCands demoBook), demoTrade = fullOf p.2 := by
  have h := is_portfolio_optimal_selection demoBase demoBook
  have hmem : ((11 : ℚ), (⟨0, 100, OrderSide.BUY⟩ : BotOrder))
      ∈ buildTrades demoBase (aggCands demoBook) := by
    norm_num [buildTrades, tradeStep, aggCands, scanBook, scanStep, alistGet, alistSet,
      get_potential_performance, demoBase, demoBook, updFn]
  have hv : check_order_validity demoBase (fullOf ⟨0, 100, OrderSide.BUY⟩) = true := by
    norm_num [check_order_validity, fullOf, demoBase]
  have h1 := h.1 ((11 : ℚ), (⟨0, 100, OrderSide.BUY⟩ : BotOrder)) hmem
  have hfalse : (is_portfolio_optimal demoBase demoBook).1 = false :=
    (h.2.1.1).mpr ⟨((11 : ℚ), (⟨0, 100, OrderSide.BUY⟩ : BotOrder)), hmem, by norm_num, hv⟩
  have hsome : (is_portfolio_optimal demoBase demoBook).2 = some demoTrade := by
    norm_num [is_portfolio_optimal, searchShell, buildTrades, tradeStep, aggCands, scanBook,
      scanStep, alistGet, alistSet, get_potential_performance, demoBase, demoBook, updFn,
      selLoop, check_order_validity, fullOf, demoTrade]
  obtain ⟨p, hp, hpt, _⟩ := h.2.1.2 demoTrade hsome
  exact ⟨h1, hfalse, ⟨p, hp, hpt⟩⟩

/-! ### C10: equal scores collapse in the score-keyed dict -/

/-- The two-security state for the duplicate-score demonstration. -/
def dupState : BotState := { demoBase with securities := [0, 1] }

/-- A book with a foreign ask on security 0 at 100 and a foreign bid on
security 1 at 300: the BUY candidate (score 11) and the SELL candidate
(score 11) collide on the same dict key. -/
def dupBook : List BookOrder :=
  [⟨0, 100, OrderSide.SELL, false, 1⟩, ⟨1, 300, OrderSide.BUY, false, 1⟩]

/-- C10: candidate trades are collected keyed by their score, so a
later-constructed candidate with exactly the same score replaces the
earlier one; at `dupState`/`dupBook` the valid BUY (score 11) is replaced by
the later invalid SELL (score 11), and the search reports the portfolio
optimal although the improving, valid BUY exists. -/
theorem duplicate_score_overwrite :
    (∀ (l : List (ℚ × BotOrder)) (k : ℚ) (v : BotOrder),
        alistGet (alistSet l k v) k = some v)
    ∧ aggCands dupBook = [⟨0, 100, OrderSide.BUY⟩, ⟨1, 300, OrderSide.SELL⟩]
    ∧ get_potential_performance dupState [⟨0, 100, OrderSide.BUY⟩] = 11
    ∧ get_potential_performance dupState [⟨1, 300, OrderSide.SELL⟩] = 11
    ∧ dupState.currentPerformance < 11
    ∧ check_order_validity dupState (fullOf ⟨0, 100, OrderSide.BUY⟩) = true
    ∧ check_order_validity dupState (fullOf ⟨1, 300, OrderSide.SELL⟩) = false
    ∧ buildTrades dupState (aggCands dupBook) = [(11, ⟨1, 300, OrderSide.SELL⟩)]
    ∧ is_portfolio_optimal dupState dupBook = (true, none) := by
  refine ⟨fun l k v => alistGet_alistSet_self l k v, ?_, ?_, ?_, ?_, ?_, ?_, ?_, ?_⟩
  · norm_num [aggCands, scanBook, scanStep, alistGet, alistSet, dupBook]
  · norm_num [get_potential_performance, dupState, demoBase, updFn]
  · norm_num [get_potential_performance, dupState, demoBase, updFn]
  · norm_num [dupState, demoBase]
  · norm_num [check_order_validity, fullOf, dupState, demoBase]
  · norm_num [check_order_validity, fullOf, dupState, demoBase]
  · norm_num [buildTrades, tradeStep, aggCands, scanBook, scanStep, alistGet, alistSet,
      get_potential_performance, dupState, demoBase, dupBook, updFn]
  · norm_num [is_portfolio_optimal, searchShell, buildTrades, tradeStep, aggCands, scanBook,
      scanStep, alistGet, alistSet, get_potential_performance, dupState, demoBase, dupBook,
      updFn, selLoop, check_order_validity, fullOf]

/-! ### C9: synthetic quotes of the market-making search -/

theorem fb_preserve (price : Security → Int) :
    ∀ (secs : List Security) (d : List (Security × Int)) (sec : Security) (v : Int),
      alistGet d sec = some v → alistGet (fb price secs d) sec = some v := by
  intro secs
  induction secs with
  | nil => intro d sec v h; simpa [fb] using h
  | cons a t ih =>
    intro d sec v h
    cases hma : alistGet d a with
    | none =>
      simp only [fb, hma]
      apply ih
      by_cases has : sec = a
      · subst has; rw [h] at hma; cases hma
      · rw [alistGet_alistSet_ne d a sec (price a) has]; exact h
    | some w =>
      simp only [fb, hma]
      exact ih d sec v h

theorem fb_sets (price : Security → Int) :
    ∀ (secs : List Security) (d : List (Security × Int)) (sec : Security),
      sec ∈ secs → alistGet d sec = none →
      alistGet (fb price secs d) sec = some (price sec) := by
  intro secs
  induction secs with
  | nil => intro d sec h; cases h
  | cons a t ih =>
    intro d sec hmem hnone
    by_cases hsa : sec = a
    · subst hsa
      simp only [fb, hnone]
      exact fb_preserve price t (alistSet d sec (price sec)) sec (price sec)
        (alistGet_alistSet_self d sec (price sec))
    · have hmem2 : sec ∈ t := by
        rcases List.mem_cons.mp hmem with h | h
        · exact absurd h hsa
        · exact h
      cases hma : alistGet d a with
      | none =>
        simp only [fb, hma]
        apply ih (alistSet d a (price a)) sec hmem2
        rw [alistGet_alistSet_ne d a sec (price a) hsa]
        exact hnone
      | some w =>
        simp only [fb, hma]
        exact ih d sec hmem2 hnone

theorem scan_no_buy (sec : Security) :
    ∀ (book : List BookOrder) (acc : List (Security × Int) × List (Security × Int)),
      alistGet acc.1 sec = none →
      (∀ o ∈ book, o.order_side = OrderSide.BUY → o.sec ≠ sec) →
      alistGet (book.foldl scanStep acc).1 sec = none := by
  intro book
  induction book with
  | nil => intro acc h _; simpa using h
  | cons o t ih =>
    intro acc h hall
    rw [List.foldl_cons]
    apply ih
    · rcases o with ⟨osec, oprice, oside, omine, ounits⟩
      cases oside with
      | SELL =>
        simp only [scanStep]
        cases hma : alistGet acc.2 osec with
        | none => exact h
        | some p => dsimp only; split_ifs <;> exact h
      | BUY =>
        have hne : osec ≠ sec :=
          hall ⟨osec, oprice, OrderSide.BUY, omine, ounits⟩
            (List.mem_cons_self _ t) rfl
        simp only [scanStep]
        cases hma : alistGet acc.1 osec with
        | none =>
          show alistGet (alistSet acc.1 osec oprice) sec = none
          rw [alistGet_alistSet_ne acc.1 osec sec oprice (Ne.symm hne)]
          exact h
        | some p =>
          dsimp only
          split_ifs
          · show alistGet (alistSet acc.1 osec oprice) sec = none
            rw [alistGet_alistSet_ne acc.1 osec sec oprice (Ne.symm hne)]
            exact h
          · exact h
    · intro q hq hbq
      exact hall q (List.mem_cons_of_mem o hq) hbq

theorem scan_no_sell (sec : Security) :
    ∀ (book : List BookOrder) (acc : List (Security × Int) × List (Security × Int)),
      alistGet acc.2 sec = none →
      (∀ o ∈ book, o.order_side = OrderSide.SELL → o.sec ≠ sec) →
      alistGet (book.foldl scanStep acc).2 sec = none := by
  intro book
  induction book with
  | nil => intro acc h _; simpa using h
  | cons o t ih =>
    intro acc h hall
    rw [List.foldl_cons]
    apply ih
    · rcases o with ⟨osec, oprice, oside, omine, ounits⟩
      cases oside with
      | BUY =>
        simp only [scanStep]
        cases hma : alistGet acc.1 osec with
        | none => exact h
        | some p => dsimp only; split_ifs <;> exact h
      | SELL =>
        have hne : osec ≠ sec :=
          hall ⟨osec, oprice, OrderSide.SELL, omine, ounits⟩
            (List.mem_cons_self _ t) rfl
        simp only [scanStep]
        cases hma : alistGet acc.2 osec with
        | none =>
          show alistGet (alistSet acc.2 osec oprice) sec = none
          rw [alistGet_alistSet_ne acc.2 osec sec oprice (Ne.symm hne)]
          exact h
        | some p =>
          dsimp only
          split_ifs
          · show alistGet (alistSet acc.2 osec oprice) sec = none
            rw [alistGet_alistSet_ne acc.2 osec sec oprice (Ne.symm hne)]
            exact h
          · exact h
    · intro q hq hbq
      exact hall q (List.mem_cons_of_mem o hq) hbq

/-- The Scenario C configuration: security 0 with minimum price 10,
maximum price 500. -/
def scenarioC : BotState := { demoBase with minPrice := fun _ => 10 }

/-- C9: for every known security lacking a live best bid the market-making
search substitutes the security's minimum valid price as the synthetic bid,
and lacking a live best ask it substitutes the maximum valid price as the
synthetic ask; every BUY candidate is priced exactly one price tick above
its synthetic bid and every SELL candidate exactly one price tick below its
synthetic ask; with no open orders and price bounds (10, 500), security 0's
synthetic bid/ask are (10, 500) before the tick adjustment. -/
theorem mm_synthetic_quotes_spec (s : BotState) (book : List BookOrder) :
    (∀ sec ∈ s.securities,
      (∀ o ∈ book, o.order_side = OrderSide.BUY → o.sec ≠ sec) →
      alistGet (mmBids s book) sec = some (s.minPrice sec))
    ∧ (∀ sec ∈ s.securities,
      (∀ o ∈ book, o.order_side = OrderSide.SELL → o.sec ≠ sec) →
      alistGet (mmAsks s book) sec = some (s.maxPrice sec))
    ∧ (∀ c ∈ mmCands s book,
        (c.order_side = OrderSide.BUY →
          ∃ p ∈ mmBids s book, c = ⟨p.1, p.2 + s.priceTick p.1, OrderSide.BUY⟩)
        ∧ (c.order_side = OrderSide.SELL →
          ∃ p ∈ mmAsks s book, c = ⟨p.1, p.2 - s.priceTick p.1, OrderSide.SELL⟩))
    ∧ (mmBids scenarioC [] = [(0, 10)] ∧ mmAsks scenarioC [] = [(0, 500)]) := by
  refine ⟨?_, ?_, ?_, ?_, ?_⟩
  · intro sec hsec hno
    unfold mmBids
    apply fb_sets
    · exact hsec
    · exact scan_no_buy sec book ([], []) rfl hno
  · intro sec hsec hno
    unfold mmAsks
    apply fb_sets
    · exact hsec
    · exact scan_no_sell sec book ([], []) rfl hno
  · intro c hc
    rcases List.mem_append.mp hc with h | h
    · obtain ⟨p, hp, rfl⟩ := List.mem_map.mp h
      constructor
      · intro _; exact ⟨p, hp, rfl⟩
      · intro hside; cases hside
    · obtain ⟨p, hp, rfl⟩ := List.mem_map.mp h
      constructor
      · intro hside; cases hside
      · intro _; exact ⟨p, hp, rfl⟩
  · norm_num [mmBids, fb, scanBook, alistGet, alistSet, scenarioC, demoBase]
  · norm_num [mmAsks, fb, scanBook, alistGet, alistSet, scenarioC, demoBase]

/-- C9 (witness): the first two parts of the synthetic-quote contract,
instantiated at the Scenario C state with the empty book. -/
theorem mm_synthetic_quotes_witness :
    alistGet (mmBids scenarioC []) 0 = some (scenarioC.minPrice 0)
    ∧ alistGet (mmAsks scenarioC []) 0 = some (scenarioC.maxPrice 0) := by
  have h := mm_synthetic_quotes_spec scenarioC []
  exact ⟨h.1 0 (by norm_num [scenarioC, demoBase]) (by intro o ho; cases ho),
    h.2.1 0 (by norm_num [scenarioC, demoBase]) (by intro o ho; cases ho)⟩

/-! ### The order lifecycle -/

theorem findFill_none (notifs : List NotifOrder) :
    (∀ o ∈ notifs, notifMatches o = false) → findFill notifs = none := by
  induction notifs with
  | nil => intro _; rfl
  | cons o t ih =>
    intro hall
    have ho := hall o (List.mem_cons_self o t)
    unfold notifMatches at ho
    rw [Bool.or_eq_false_iff] at ho
    obtain ⟨h1, h2⟩ := ho
    have ht := ih fun q hq => hall q (List.mem_cons_of_mem o hq)
    cases hto : o.traded_order with
    | none =>
      simp [findFill, hto, ht]
    | some tr =>
      rw [hto] at h1 h2
      have homine : o.mine = false := by simpa using h1
      have htm : tr.mine = false := by simpa using h2
      simp [findFill, hto, homine, htm, ht]

theorem findFill_isSome (notifs : List NotifOrder) :
    (∃ o ∈ notifs, notifMatches o = true) → ∃ f, findFill notifs = some f := by
  induction notifs with
  | nil => rintro ⟨o, ho, _⟩; cases ho
  | cons o t ih =>
    rintro ⟨q, hq, hmq⟩
    by_cases h1 : (o.mine && o.traded_order.isSome) = true
    · exact ⟨(o.sec, o.price, o.order_side), by simp [findFill, h1]⟩
    · have h1f : (o.mine && o.traded_order.isSome) = false := by
        simpa using h1
      cases hto : o.traded_order with
      | some tr =>
        have homine : o.mine = false := by
          rw [hto] at h1f; simpa using h1f
        by_cases htm : tr.mine = true
        · exact ⟨(tr.sec, tr.price, tr.order_side),
            by simp [findFill, hto, homine, htm]⟩
        · have htmf : tr.mine = false := by simpa using htm
          have hq2 : q ∈ t := by
            rcases List.mem_cons.mp hq with rfl | h
            · exfalso
              unfold notifMatches at hmq
              rw [hto] at hmq
              simp [homine, htmf] at hmq
            · exact h
          obtain ⟨f, hf⟩ := ih ⟨q, hq2, hmq⟩
          exact ⟨f, by simp [findFill, hto, homine, htmf, hf]⟩
      | none =>
        have hq2 : q ∈ t := by
          rcases List.mem_cons.mp hq with rfl | h
          · exfalso
            unfold notifMatches at hmq
            rw [hto] at hmq
            simp at hmq
          · exact h
        obtain ⟨f, hf⟩ := ih ⟨q, hq2, hmq⟩
        exact ⟨f, by simp [findFill, hto, hf]⟩

/-- The pending-lifecycle demonstration state: the bot's order is on the
market and the wait counter (7) already exceeds the maximum wait (6). -/
def pendState : BotState := { demoBase with orderOnMarket := true, currentWaitTime := 7 }

/-- A notification list containing a fill of the bot's own order. -/
def fillNotifs : List NotifOrder :=
  [⟨true, 0, 100, OrderSide.BUY, some ⟨false, 0, 100, OrderSide.SELL⟩⟩]

/-- A book containing exactly one order of the bot's own. -/
def mineBook : List BookOrder := [⟨0, 100, OrderSide.BUY, true, 1⟩]

/-- C5: while an order is outstanding, a `received_orders` notification
containing a fill match — an own order with a traded order, or a
counter-order whose traded order is the bot's — makes the controller inform
the user of the trade, clear `_order_on_market` and reset the wait counter
to 0. -/
theorem received_orders_fill_spec (s : BotState) (notifs : List NotifOrder)
    (book : List BookOrder)
    (h1 : s.orderOnMarket = true)
    (h2 : ∃ o ∈ notifs, notifMatches o = true) :
    (received_orders s notifs book).1.orderOnMarket = false
    ∧ (received_orders s notifs book).1.currentWaitTime = 0
    ∧ ∃ f : Security × Int × OrderSide,
        (received_orders s notifs book).2 = [Action.informTraded f.1 f.2.1 f.2.2] := by
  obtain ⟨f, hf⟩ := findFill_isSome notifs h2
  refine ⟨?_, ?_, ⟨f, ?_⟩⟩ <;> simp [received_orders, h1, hf]

/-- C5 (witness): the fill contract at the pending demonstration state. -/
theorem received_orders_fill_witness :
    (received_orders pendState fillNotifs []).1.orderOnMarket = false
    ∧ (received_orders pendState fillNotifs []).1.currentWaitTime = 0
    ∧ ∃ f : Security × Int × OrderSide,
        (received_orders pendState fillNotifs []).2
          = [Action.informTraded f.1 f.2.1 f.2.2] :=
  received_orders_fill_spec pendState fillNotifs [] rfl
    ⟨⟨true, 0, 100, OrderSide.BUY, some ⟨false, 0, 100, OrderSide.SELL⟩⟩,
      List.mem_cons_self _ _, rfl⟩

/-- C6: while an order is outstanding, when no fill match is notified and
the wait counter strictly exceeds the maximum wait time, the controller
issues exactly one cancellation — a CANCEL copy of the bot's single book
order — clears `_order_on_market` and resets the wait counter to 0. -/
theorem received_orders_timeout_spec (s : BotState) (notifs : List NotifOrder)
    (book : List BookOrder) (b : BookOrder)
    (h1 : s.orderOnMarket = true)
    (h2 : ∀ o ∈ notifs, notifMatches o = false)
    (h3 : s.maxWaitTime < s.currentWaitTime)
    (h4 : book.filter (fun o => o.mine) = [b]) :
    (received_orders s notifs book).1.orderOnMarket = false
    ∧ (received_orders s notifs book).1.currentWaitTime = 0
    ∧ (received_orders s notifs book).2 = [Action.send (cancelOf b)]
    ∧ (cancelOf b).order_type = OrderType.CANCEL := by
  have hf := findFill_none notifs h2
  refine ⟨?_, ?_, ?_, rfl⟩ <;> simp [received_orders, h1, hf, h3, h4]

/-- C6 (witness): the timeout contract at the pending demonstration state
with one own book order and no notifications. -/
theorem received_orders_timeout_witness :
    (received_orders pendState [] mineBook).1.orderOnMarket = false
    ∧ (received_orders pendState [] mineBook).1.currentWaitTime = 0
    ∧ (received_orders pendState [] mineBook).2
        = [Action.send (cancelOf ⟨0, 100, OrderSide.BUY, true, 1⟩)]
    ∧ (cancelOf ⟨0, 100, OrderSide.BUY, true, 1⟩).order_type = OrderType.CANCEL :=
  received_orders_timeout_spec pendState [] mineBook ⟨0, 100, OrderSide.BUY, true, 1⟩
    rfl (by intro o ho; cases ho) (by norm_num [pendState, demoBase]) rfl

/-- C7 (counterexample): with the lifecycle PENDING, a venue rejection
notification for the outstanding order does NOT return the lifecycle to
IDLE — `order_rejected` only informs, leaving `_order_on_market` true —
contradicting the claim's first part. -/
theorem order_rejected_counterexample :
    pendState.orderOnMarket = true
    ∧ (order_rejected pendState demoTrade).1.orderOnMarket = true
    ∧ (order_rejected pendState demoTrade).2 = [Action.informRejected demoTrade] :=
  ⟨rfl, rfl, rfl⟩

/-- C7 (amended): a venue rejection notification leaves the bot state —
in particular the PENDING lifecycle — completely unchanged (the handler is
informational only); the outstanding order is treated as still pending
until the timeout-driven cancellation applies, which then returns the
lifecycle to IDLE. -/
theorem order_rejected_amended (s : BotState) (o : FullOrder) (notifs : List NotifOrder)
    (book : List BookOrder)
    (h1 : s.orderOnMarket = true)
    (h2 : ∀ n ∈ notifs, notifMatches n = false)
    (h3 : s.maxWaitTime < s.currentWaitTime) :
    (order_rejected s o).1 = s
    ∧ (order_rejected s o).1.orderOnMarket = true
    ∧ (received_orders (order_rejected s o).1 notifs book).1.orderOnMarket = false
    ∧ (received_orders (order_rejected s o).1 notifs book).1.currentWaitTime = 0 := by
  have hf := findFill_none notifs h2
  refine ⟨rfl, h1, ?_, ?_⟩ <;> simp [received_orders, order_rejected, h1, hf, h3]

/-- C7 (amended, witness): the rejection contract at the pending
demonstration state. -/
theorem order_rejected_amended_witness :
    (order_rejected pendState demoTrade).1 = pendState
    ∧ (order_rejected pendState demoTrade).1.orderOnMarket = true
    ∧ (received_orders (order_rejected pendState demoTrade).1 [] []).1.orderOnMarket = false
    ∧ (received_orders (order_rejected pendState demoTrade).1 [] []).1.currentWaitTime = 0 :=
  order_rejected_amended pendState demoTrade [] [] rfl (by intro n hn; cases hn)
    (by norm_num [pendState, demoBase])

/-- C2: under every event — order-book notification, holdings update,
1-second tick, 5-second illiquid-market tick, accept or reject
notification — a new LIMIT order is sent only from a state where
`_order_on_market` is false, and the submission sets `_order_on_market`
true; hence at most one bot order is ever in flight. -/
theorem single_order_invariant (s : BotState) (e : Event) (o : FullOrder)
    (hmem : Action.send o ∈ (step s e).2)
    (hlim : o.order_type = OrderType.LIMIT) :
    s.orderOnMarket = false ∧ (step s e).1.orderOnMarket = true := by
  cases e with
  | recOrders notifs book =>
    simp only [step] at hmem ⊢
    by_cases h1 : s.orderOnMarket
    · exfalso
      cases hf : findFill notifs with
      | some f => simp [received_orders, h1, hf] at hmem
      | none =>
        by_cases h2 : s.currentWaitTime > s.maxWaitTime
        · simp [received_orders, h1, hf, h2, List.mem_map] at hmem
          obtain ⟨b, hb, he⟩ := hmem
          have hcan : (cancelOf b).order_type = OrderType.LIMIT := by
            rw [he]; exact hlim
          simp [cancelOf] at hcan
        · simp [received_orders, h1, hf, h2] at hmem
    · have hof : s.orderOnMarket = false := by simpa using h1
      refine ⟨hof, ?_⟩
      rcases hopt : is_portfolio_optimal s book with ⟨b, topt⟩
      cases b with
      | false =>
        cases topt with
        | some t => simp [received_orders, hof, hopt]
        | none =>
          by_cases h2 : s.currentWaitTime > s.maxWaitTime
          · rcases hmm : market_making_portfolio_optimal s book with ⟨b2, t2⟩
            cases b2 with
            | false =>
              cases t2 with
              | some t => simp [received_orders, hof, hopt, h2, hmm]
              | none =>
                exfalso; simp [received_orders, hof, hopt, h2, hmm] at hmem
            | true =>
              exfalso
              cases t2 <;> simp [received_orders, hof, hopt, h2, hmm] at hmem
          · exfalso; simp [received_orders, hof, hopt, h2] at hmem
      | true =>
        cases topt with
        | some t =>
          by_cases h2 : s.currentWaitTime > s.maxWaitTime
          · rcases hmm : market_making_portfolio_optimal s book with ⟨b2, t2⟩
            cases b2 with
            | false =>
              cases t2 with
              | some tt => simp [received_orders, hof, hopt, h2, hmm]
              | none =>
                exfalso; simp [received_orders, hof, hopt, h2, hmm] at hmem
            | true =>
              exfalso
              cases t2 <;> simp [received_orders, hof, hopt, h2, hmm] at hmem
          · exfalso; simp [received_orders, hof, hopt, h2] at hmem
        | none =>
          by_cases h2 : s.currentWaitTime > s.maxWaitTime
          · rcases hmm : market_making_portfolio_optimal s book with ⟨b2, t2⟩
            cases b2 with
            | false =>
              cases t2 with
              | some tt => simp [received_orders, hof, hopt, h2, hmm]
              | none =>
                exfalso; simp [received_orders, hof, hopt, h2, hmm] at hmem
            | true =>
              exfalso
              cases t2 <;> simp [received_orders, hof, hopt, h2, hmm] at hmem
          · exfalso; simp [received_orders, hof, hopt, h2] at hmem
  | recHoldings cash assets =>
    exfalso
    simp only [step] at hmem
    split at hmem <;> simp at hmem
  | tick1 =>
    exfalso
    simp [step] at hmem
  | tick5 book =>
    simp only [step] at hmem ⊢
    by_cases h2 : s.currentWaitTime > s.maxWaitTime
    · by_cases h3 : s.orderOnMarket
      · exfalso; simp [illiquid_market_market_making, h2, h3] at hmem
      · have hof : s.orderOnMarket = false := by simpa using h3
        refine ⟨hof, ?_⟩
        rcases hmm : market_making_portfolio_optimal s book with ⟨b2, t2⟩
        cases b2 with
        | false =>
          cases t2 with
          | some t => simp [illiquid_market_market_making, h2, h3, hmm]
          | none =>
            exfalso; simp [illiquid_market_market_making, h2, h3, hmm] at hmem
        | true =>
          exfalso
          cases t2 <;> simp [illiquid_market_market_making, h2, h3, hmm] at hmem
    · exfalso; simp [illiquid_market_market_making, h2] at hmem
  | accepted o2 =>
    exfalso
    simp [step, order_accepted] at hmem
  | rejected o2 =>
    exfalso
    simp [step, order_rejected] at hmem

/-- C2 (witness): at the IDLE demonstration state an order-book event makes
the controller send the LIMIT BUY and the flag flips from false to true. -/
theorem single_order_invariant_witness :
    demoBase.orderOnMarket = false
    ∧ (step demoBase (Event.recOrders [] demoBook)).1.orderOnMarket = true := by
  apply single_order_invariant demoBase (Event.recOrders [] demoBook) demoTrade
  · have hres : (step demoBase (Event.recOrders [] demoBook)).2
        = [Action.send demoTrade] := by
      norm_num [step, received_orders, is_portfolio_optimal, searchShell, buildTrades,
        tradeStep, aggCands, scanBook, scanStep, alistGet, alistSet,
        get_potential_performance, demoBase, demoBook, updFn, selLoop,
        check_order_validity, fullOf, demoTrade, findFill]
    rw [hres]
    exact List.mem_singleton.mpr rfl
  · rfl

end CAPMBot
